import Mathlib

/-!
Verification of the `SpacyNLP` pipeline component
(`rasa/nlu/utils/spacy_utils.py`).

The Python source is shallowly embedded below.  The external spaCy
provider is abstracted as a `Provider` record: its single-document call
`annotate`, the zero-token document `emptyDoc` produced by `Doc(vocab)`,
and the token count `docLen` (Python `len(doc)`).  Per the specified
contract of the external collaborator, the batched call `nlp.pipe` is
order-preserving and produces, for each input text, the same document as
processing that text in isolation; it is therefore modelled as
`List.map annotate`.  Pipeline functions that invoke `nlp.pipe` also
return the argument list of every such invocation, so that claims about
how often the batched capability is invoked (and with which texts)
become statable.

Python `dict` construction, `dict.update` / `d[k] = v`, and
`Message.set` are modelled by `dictUpd` / `pyDict` (last write wins,
insertion order kept); Python `sorted` on `dict.items()` is modelled by
an insertion sort on the (distinct) integer keys.  Python truthiness of
`None`/`""` is modelled explicitly where the source relies on it.
-/

namespace SpacyUtils

/-- The external NLP model provider (spaCy `Language` object), specified
only at its interface: a single-text annotation call, the empty-document
sentinel `Doc(vocab)`, and the token count of a document. -/
structure Provider (Doc : Type) where
  annotate : String → Doc
  emptyDoc : Doc
  docLen : Doc → Nat

/-- The batched annotation capability `nlp.pipe`: order-preserving, one
document per input text, each document equal to processing that text in
isolation (the contract assumed of the external collaborator). -/
def Provider.pipe {Doc : Type} (P : Provider Doc) (texts : List String) : List Doc :=
  texts.map P.annotate

/-- Model of Python `str.lower()` (basic-latin case folding, per-character). -/
def strLower (s : String) : String :=
  String.mk (s.data.map Char.toLower)

/-- `SpacyNLP.preprocess_text`: substitute `None` by the empty string,
then lower-case unless the `case_sensitive` configuration flag is set. -/
def preprocess_text (case_sensitive : Bool) (text : Option String) : String :=
  let t := match text with
    | none => ""
    | some s => s
  if case_sensitive then t else strLower t

/-- A training example / inference message: a finite map from attribute
names to raw text values (absent attribute = Python `None`). -/
structure Message where
  data : List (String × String)
deriving DecidableEq

/-- `Message.get(attribute)`: the raw text stored under an attribute, or
`None` when the attribute is absent. -/
def Message.get (m : Message) (attr : String) : Option String :=
  m.data.lookup attr

/-- `SpacyNLP.get_text`: preprocessed text of one attribute of one example. -/
def get_text (case_sensitive : Bool) (ex : Message) (attr : String) : String :=
  preprocess_text case_sensitive (ex.get attr)

/-- One Python dict write `d[k] = v`: replace the value if the key is
present, otherwise append the binding at the end. -/
def dictUpd {κ α : Type} [BEq κ] (m : List (κ × α)) (k : κ) (v : α) : List (κ × α) :=
  if m.any (fun p => p.1 == k) then
    m.map (fun p => if p.1 == k then (p.1, v) else p)
  else
    m ++ [(k, v)]

/-- Python `dict(pairs)`: fold the writes left to right (last write wins). -/
def pyDict {κ α : Type} [BEq κ] (ps : List (κ × α)) : List (κ × α) :=
  ps.foldl (fun m p => dictUpd m p.1 p.2) []

/-- Comparison of dict items by their integer key, as used by Python
`sorted` on `dict.items()` (the keys of a dict are distinct, so the
values are never compared). -/
def keyLE {α : Type} (a b : Nat × α) : Prop :=
  a.1 ≤ b.1

instance {α : Type} : DecidableRel (@keyLE α) :=
  fun a b => Nat.decLe a.1 b.1

instance {α : Type} : IsTotal (Nat × α) keyLE :=
  ⟨fun a b => Nat.le_total a.1 b.1⟩

instance {α : Type} : IsTrans (Nat × α) keyLE :=
  ⟨fun _ _ _ => Nat.le_trans⟩

/-- Python `sorted(d.items())` for an integer-keyed dict. -/
def sortByKey {α : Type} (m : List (Nat × α)) : List (Nat × α) :=
  List.insertionSort keyLE m

/-- Values of the merged dict in `merge_content_lists`: the dict first
holds the raw training-sample strings and is then updated with processed
documents (Python mixes the two types in one dict). -/
abbrev Entry (Doc : Type) := Sum String Doc

/-- `SpacyNLP.merge_content_lists`: `dct = dict(indexed_training_samples)`,
`dct.update(dict(doc_lists))`, `return sorted(dct.items())`. -/
def merge_content_lists {Doc : Type} (indexed_training_samples : List (Nat × String))
    (doc_lists : List (Nat × Doc)) : List (Nat × Entry Doc) :=
  sortByKey (pyDict
    (indexed_training_samples.map (fun p => (p.1, (Sum.inl p.2 : Entry Doc)))
      ++ doc_lists.map (fun p => (p.1, (Sum.inr p.2 : Entry Doc)))))

/-- `SpacyNLP.filter_training_samples_by_content`: split the indexed
samples into content-bearing (`text != ""`) and empty (`text == ""`)
ones, each in input order. -/
def filter_training_samples_by_content (indexed_training_samples : List (Nat × String)) :
    List (Nat × String) × List (Nat × String) :=
  (indexed_training_samples.filter (fun p => p.2 != ""),
   indexed_training_samples.filter (fun p => p.2 == ""))

/-- `SpacyNLP.process_content_bearing_samples`: one `nlp.pipe` call over
the extracted texts, re-paired with the original positions by zipping. -/
def process_content_bearing_samples {Doc : Type} (P : Provider Doc)
    (samples_to_pipe : List (Nat × String)) : List (Nat × Doc) :=
  (samples_to_pipe.zip (P.pipe (samples_to_pipe.map (fun p => p.2)))).map
    (fun q => (q.1.1, q.2))

/-- `SpacyNLP.process_non_content_bearing_samples`: one empty
`Doc(nlp.vocab)` per empty sample, paired with its position. -/
def process_non_content_bearing_samples {Doc : Type} (P : Provider Doc)
    (empty_samples : List (Nat × String)) : List (Nat × Doc) :=
  (empty_samples.zip (empty_samples.map (fun _ => P.emptyDoc))).map
    (fun q => (q.1.1, q.2))

/-- The batch document pipeline for one attribute, exactly as composed in
`docs_for_training_data`: filter, process the two partitions, merge.
The second component records the argument list of every `nlp.pipe`
invocation made (the source makes exactly one such call, inside
`process_content_bearing_samples`, whether or not its text list is
empty). -/
def runPipeline {Doc : Type} (P : Provider Doc) (indexed : List (Nat × String)) :
    List (Nat × Entry Doc) × List (List String) :=
  let parts := filter_training_samples_by_content indexed
  let content_bearing_docs := process_content_bearing_samples P parts.1
  let non_content_bearing_docs := process_non_content_bearing_samples P parts.2
  (merge_content_lists indexed (content_bearing_docs ++ non_content_bearing_docs),
   [parts.1.map (fun p => p.2)])

/-- The body of `docs_for_training_data` for one dense-featurizable
attribute: extract and preprocess each example's text, index by
enumeration, run the batch pipeline, and keep the documents of the
merged, position-sorted result. -/
def docs_for_attribute {Doc : Type} (P : Provider Doc) (case_sensitive : Bool)
    (raw : List (Option String)) : List (Entry Doc) :=
  let texts := raw.map (preprocess_text case_sensitive)
  ((runPipeline P texts.enum).1).map (fun p => p.2)

/-- Python `len` of a merged dict value: string length for a leftover
raw string, token count for a document. -/
def entryLen {Doc : Type} (P : Provider Doc) : Entry Doc → Nat
  | Sum.inl s => s.length
  | Sum.inr d => P.docLen d

/-- `SpacyNLP.train`: compute the per-attribute document lists, then for
every attribute and example attach the document to the example's slot
for that attribute when its length is positive (a zero-length document
marks a text that was absent or empty).  The per-example result is the
map of attached slots; `SPACY_DOCS` is an injective renaming of
attribute names and is modelled as the identity on slot names. -/
def train {Doc : Type} (P : Provider Doc) (case_sensitive : Bool)
    (attributes : List String) (examples : List Message) :
    List (List (String × Entry Doc)) :=
  attributes.foldl (fun acc attr =>
    let docs := docs_for_attribute P case_sensitive
      (examples.map (fun e => e.get attr))
    (acc.zip docs).map (fun q =>
      if 0 < entryLen P q.2 then dictUpd q.1 attr q.2 else q.1))
    (examples.map (fun _ => []))

/-- `SpacyNLP.doc_for_text`: single-document provider call on the
preprocessed text. -/
def doc_for_text {Doc : Type} (P : Provider Doc) (case_sensitive : Bool)
    (text : Option String) : Doc :=
  P.annotate (preprocess_text case_sensitive text)

/-- Python truthiness of `message.get(attribute)`: `None` and the empty
string are falsy. -/
def truthy : Option String → Bool
  | none => false
  | some t => !(t == "")

/-- `SpacyNLP.process`: single-example inference.  For each attribute
whose value is truthy, attach `doc_for_text` of that value.  The second
component records the preprocessed text of every single-document
provider call made. -/
def process {Doc : Type} (P : Provider Doc) (case_sensitive : Bool)
    (attributes : List String) (message : Message) :
    List (String × Doc) × List String :=
  attributes.foldl (fun acc attr =>
    if truthy (message.get attr) then
      (dictUpd acc.1 attr (doc_for_text P case_sensitive (message.get attr)),
       acc.2 ++ [preprocess_text case_sensitive (message.get attr)])
    else acc)
    ([], [])

/-- The error kinds raised by the component, one per `raise` site, each
carrying what the source interpolates into its message. -/
inductive ModelError where
  | noFallback (lang : String)
  | notInstalled (name : String)
  | nullProvider
  | stubProvider (lang : String)
deriving DecidableEq

/-- The static fallback table of `_check_model_fallback`. -/
def fallback_mapping : List (String × String) :=
  [("zh", "zh_core_web_md"), ("da", "da_core_news_md"), ("nl", "nl_core_news_md"),
   ("en", "en_core_web_md"), ("fr", "fr_core_news_md"), ("de", "de_core_news_sm"),
   ("el", "el_core_news_md"), ("it", "it_core_news_md"), ("ja", "ja_core_news_md"),
   ("lt", "lt_core_news_md"), ("mk", "mk_core_news_md"), ("nb", "nb_core_news_md"),
   ("pl", "pl_core_news_md"), ("pt", "pt_core_news_md"), ("ro", "ro_core_news_md"),
   ("ru", "ru_core_news_md"), ("es", "es_core_news_md")]

/-- Result of model-name resolution: the resolved name, and whether a
fallback deprecation advisory was emitted. -/
structure ResolveOut where
  name : String
  warned : Bool
deriving DecidableEq

/-- The fallback branch of `_check_model_fallback`: look the language up
in the table; raise if absent; warn (when asked to) and return the
mapped name otherwise. -/
def resolve_fallback (language_name : String) (warn : Bool) : Except ModelError ResolveOut :=
  match fallback_mapping.lookup language_name with
  | none => Except.error (ModelError.noFallback language_name)
  | some m => Except.ok ⟨m, warn⟩

/-- `SpacyNLP._check_model_fallback`: `if not spacy_model_name` (Python
falsiness: `None` or `""`) take the fallback branch, otherwise return
the configured name unchanged and warn never. -/
def check_model_fallback (spacy_model_name : Option String) (language_name : String)
    (warn : Bool) : Except ModelError ResolveOut :=
  match spacy_model_name with
  | none => resolve_fallback language_name warn
  | some n => if n = "" then resolve_fallback language_name warn else Except.ok ⟨n, false⟩

/-- `SpacyNLP.cache_key`: resolve with `warn=False` and return
`cls.name + "-" + spacy_model_name` (a raised resolution error
propagates unchanged). -/
def cache_key (component_type_name : String) (model : Option String) (language : String) :
    Except ModelError ResolveOut :=
  (check_model_fallback model language false).map
    (fun r => ⟨component_type_name ++ "-" ++ r.name, r.warned⟩)

/-- A loaded spaCy `Language` handle, specified at its interface: the
on-disk path it was loaded from (`None` for a stub) and its language. -/
structure Language where
  path : Option String
  lang : String
deriving DecidableEq

/-- `SpacyNLP.ensure_proper_language_model`: reject an absent handle,
reject a handle with no on-disk path (an unusable stub), accept others. -/
def ensure_proper_language_model : Option Language → Except ModelError Unit
  | none => Except.error ModelError.nullProvider
  | some nlp =>
    if nlp.path = none then Except.error (ModelError.stubProvider nlp.lang)
    else Except.ok ()

/-- The component object built by `SpacyNLP.__init__`: the configured
model name and the loaded provider handle. -/
structure SpacyNLPComponent where
  model : Option String
  nlp : Option Language
deriving DecidableEq

/-- Which lifecycle steps a `load` call performed: model-name
resolution, provider load, usability validation. -/
structure LoadSteps where
  resolved : Bool
  loaded : Bool
  validated : Bool
deriving DecidableEq

/-- `SpacyNLP.load`: return an already-resident cached component
unchanged (a component object is always truthy); otherwise resolve the
model name (`warn=True`), load it through the external loader, validate
the handle, and build a fresh component.  The second component of the
result records which steps ran. -/
def load (loader : String → Except ModelError Language) (meta_model : Option String)
    (language : String) (cached_component : Option SpacyNLPComponent) :
    Except ModelError (SpacyNLPComponent × LoadSteps) :=
  match cached_component with
  | some c => Except.ok (c, ⟨false, false, false⟩)
  | none => do
    let r ← check_model_fallback meta_model language true
    let nlp ← loader r.name
    let _ ← ensure_proper_language_model (some nlp)
    Except.ok (⟨meta_model, some nlp⟩, ⟨true, true, true⟩)

/-- The document the pipeline is expected to deliver for one text: the
zero-token sentinel for the empty string, the provider's document for
anything else. -/
def procDoc {Doc : Type} (P : Provider Doc) (text : String) : Doc :=
  if text = "" then P.emptyDoc else P.annotate text

/-- A concrete document type used to evaluate the development on
concrete inputs. -/
inductive SampleDoc where
  | annotated (text : String)
  | emptySentinel
deriving DecidableEq

/-- A concrete provider instance over `SampleDoc`: every annotated
document has one token, the sentinel has zero. -/
def sampleProvider : Provider SampleDoc where
  annotate := SampleDoc.annotated
  emptyDoc := SampleDoc.emptySentinel
  docLen := fun d =>
    match d with
    | SampleDoc.annotated _ => 1
    | SampleDoc.emptySentinel => 0

/-- Python falsiness of an optional string: absent (`None`) or empty. -/
def pyFalsy (s : Option String) : Prop := s = none ∨ s = some ""

/-- The per-example slot-writing loop shared by the training attachment
step and single-example inference: for each attribute in order, write
its value into the row when its condition holds. -/
def condFoldFrom {β : Type} (attrs : List String) (cond : String → Prop)
    [DecidablePred cond] (val : String → β) (row : List (String × β)) :
    List (String × β) :=
  attrs.foldl (fun r b => if cond b then dictUpd r b (val b) else r) row

theorem charToLower_idem (c : Char) : Char.toLower (Char.toLower c) = Char.toLower c := by
  by_cases h : c.toNat >= 65 ∧ c.toNat <= 90
  · have h1 : Char.toLower c = Char.ofNat (c.toNat + 32) := by
      rw [Char.toLower]
      exact if_pos h
    rw [h1]
    obtain ⟨ha, hb⟩ := h
    generalize c.toNat = n at ha hb
    interval_cases n <;> decide
  · have h1 : Char.toLower c = c := by
      rw [Char.toLower]
      exact if_neg h
    rw [h1, h1]

theorem strLower_idem (s : String) : strLower (strLower s) = strLower s := by
  unfold strLower
  apply congrArg String.mk
  show (s.data.map Char.toLower).map Char.toLower = s.data.map Char.toLower
  rw [List.map_map]
  apply List.map_congr_left
  intro a _
  exact charToLower_idem a

theorem string_append_cancel_left {a b c : String} (h : a ++ b = a ++ c) : b = c := by
  have hd : a.data ++ b.data = a.data ++ c.data := by
    have := congrArg String.data h
    rwa [String.data_append, String.data_append] at this
  exact String.ext (List.append_cancel_left hd)

theorem cache_key_warned (model : Option String) (lang : String) (r : ResolveOut)
    (h : check_model_fallback model lang false = Except.ok r) : r.warned = false := by
  rcases model with _ | n <;>
    simp only [check_model_fallback, resolve_fallback] at h
  · rcases hl : fallback_mapping.lookup lang with _ | m <;> rw [hl] at h
    · cases h
    · cases h; rfl
  · by_cases hn : n = ""
    · rw [if_pos hn] at h
      rcases hl : fallback_mapping.lookup lang with _ | m <;>
        simp [resolve_fallback, hl] at h
      rw [← h]
    · rw [if_neg hn] at h
      cases h
      rfl

theorem dictUpd_of_not_mem {κ α : Type} [BEq κ] [LawfulBEq κ]
    {m : List (κ × α)} {k : κ} (v : α)
    (h : k ∉ m.map Prod.fst) : dictUpd m k v = m ++ [(k, v)] := by
  unfold dictUpd
  rw [if_neg]
  simp only [List.any_eq_true, beq_iff_eq, not_exists, not_and]
  intro p hp hpk
  exact h (List.mem_map.mpr ⟨p, hp, hpk⟩)

theorem dictUpd_of_mem {κ α : Type} [BEq κ] [LawfulBEq κ]
    {m : List (κ × α)} {k : κ} (v : α)
    (h : k ∈ m.map Prod.fst) :
    dictUpd m k v = m.map (fun p => if p.1 == k then (p.1, v) else p) := by
  unfold dictUpd
  rw [if_pos]
  simp only [List.any_eq_true, beq_iff_eq]
  obtain ⟨p, hp, hpk⟩ := List.mem_map.mp h
  exact ⟨p, hp, hpk⟩

theorem map_fst_map_replace {κ α : Type} [BEq κ] (m : List (κ × α)) (k : κ) (v : α) :
    (m.map (fun p => if p.1 == k then (p.1, v) else p)).map Prod.fst = m.map Prod.fst := by
  rw [List.map_map]
  apply List.map_congr_left
  intro p _
  by_cases h : p.1 == k
  · simp [h]
  · simp [h]

theorem foldl_dictUpd_fresh {κ α : Type} [BEq κ] [LawfulBEq κ] :
    ∀ (ps acc : List (κ × α)), (((acc ++ ps).map Prod.fst).Nodup) →
      ps.foldl (fun m p => dictUpd m p.1 p.2) acc = acc ++ ps := by
  intro ps
  induction ps with
  | nil => intro acc _; simp
  | cons p ps ih =>
    intro acc h
    have hfresh : p.1 ∉ acc.map Prod.fst := by
      rw [List.map_append, List.nodup_append] at h
      intro hmem
      exact h.2.2 hmem (by simp)
    rw [List.foldl_cons, dictUpd_of_not_mem p.2 hfresh, ih (acc ++ [p]) (by simpa using h)]
    simp

theorem pyDict_eq_self {κ α : Type} [BEq κ] [LawfulBEq κ] {ps : List (κ × α)} (h : (ps.map Prod.fst).Nodup) :
    pyDict ps = ps := by
  have := foldl_dictUpd_fresh ps [] (by simpa using h)
  simpa [pyDict] using this

theorem lookup_eq_some_of_mem {κ α : Type} [BEq κ] [LawfulBEq κ]
    {m : List (κ × α)} {k : κ} {v : α}
    (hnd : (m.map Prod.fst).Nodup) (hmem : (k, v) ∈ m) : m.lookup k = some v := by
  induction m with
  | nil => cases hmem
  | cons p ps ih =>
    obtain ⟨pk, pv⟩ := p
    rw [List.map_cons, List.nodup_cons] at hnd
    rcases List.mem_cons.mp hmem with h1 | h1
    · rw [← h1, List.lookup_cons_self]
    · have hk : (k == pk) = false := by
        simp only [beq_eq_false_iff_ne, ne_eq]
        intro hkk
        exact hnd.1 (hkk ▸ List.mem_map.mpr ⟨(k, v), h1, rfl⟩)
      simp only [List.lookup_cons, hk]
      exact ih hnd.2 h1

theorem lookup_eq_none_of_not_mem {κ α : Type} [BEq κ] [LawfulBEq κ]
    {m : List (κ × α)} {k : κ}
    (h : k ∉ m.map Prod.fst) : m.lookup k = none := by
  rw [List.lookup_eq_none_iff]
  intro p hp
  simp only [bne_iff_ne, ne_eq]
  intro hk
  exact h (List.mem_map.mpr ⟨p, hp, hk.symm⟩)

theorem foldl_dictUpd_override {κ α : Type} [BEq κ] [LawfulBEq κ] :
    ∀ (d m : List (κ × α)), ((d.map Prod.fst).Nodup) →
      (∀ k ∈ d.map Prod.fst, k ∈ m.map Prod.fst) →
      d.foldl (fun acc p => dictUpd acc p.1 p.2) m =
        m.map (fun p => match d.lookup p.1 with | some v => (p.1, v) | none => p) := by
  intro d
  induction d with
  | nil =>
    intro m _ _
    simp
  | cons q d ih =>
    intro m hnd hsub
    obtain ⟨qk, qv⟩ := q
    have hq : qk ∈ m.map Prod.fst := hsub qk (by simp)
    rw [List.foldl_cons, dictUpd_of_mem qv hq]
    rw [List.map_cons, List.nodup_cons] at hnd
    have hsub2 : ∀ k ∈ d.map Prod.fst, k ∈
        (m.map (fun p => if p.1 == qk then (p.1, qv) else p)).map Prod.fst := by
      intro k hk
      rw [map_fst_map_replace]
      exact hsub k (by simp [hk])
    rw [ih _ hnd.2 hsub2, List.map_map]
    apply List.map_congr_left
    intro p hp
    simp only [Function.comp_apply]
    by_cases hpq : p.1 = qk
    · have hbq : (p.1 == qk) = true := beq_iff_eq.mpr hpq
      have hd : d.lookup p.1 = none := by
        rw [hpq]
        exact lookup_eq_none_of_not_mem hnd.1
      rw [if_pos hbq]
      simp only [hd, List.lookup_cons, hbq]
    · have hbq : (p.1 == qk) = false := by
        simp only [beq_eq_false_iff_ne, ne_eq]
        exact hpq
      rw [if_neg (by simp [hbq])]
      simp only [List.lookup_cons, hbq]


theorem zip_map_pair {A B C : Type} (h : A × B → C) :
    ∀ l : List (A × B), (l.zip (l.map h)).map (fun q => (q.1.1, q.2))
      = l.map (fun p => (p.1, h p)) := by
  intro l
  induction l with
  | nil => rfl
  | cons p ps ih => simp only [List.map_cons, List.zip_cons_cons, ih]

theorem process_content_bearing_eq {Doc : Type} (P : Provider Doc)
    (samples : List (Nat × String)) :
    process_content_bearing_samples P samples
      = samples.map (fun p => (p.1, P.annotate p.2)) := by
  unfold process_content_bearing_samples Provider.pipe
  rw [List.map_map]
  exact zip_map_pair (fun p => P.annotate p.2) samples

theorem process_non_content_bearing_eq {Doc : Type} (P : Provider Doc)
    (empties : List (Nat × String)) :
    process_non_content_bearing_samples P empties
      = empties.map (fun p => (p.1, P.emptyDoc)) := by
  unfold process_non_content_bearing_samples
  exact zip_map_pair (fun _ => P.emptyDoc) empties

theorem map_fst_map_pair {A B C : Type} (f : A × B → C) (l : List (A × B)) :
    (l.map (fun p => (p.1, f p))).map Prod.fst = l.map Prod.fst := by
  rw [List.map_map]
  rfl

theorem pyDict_inl_append_inr {Doc : Type} (P : Provider Doc) (l : List (Nat × String))
    (B : List (Nat × Entry Doc))
    (hA : (l.map Prod.fst).Nodup)
    (hndB : (B.map Prod.fst).Nodup)
    (hsubB : ∀ k ∈ B.map Prod.fst, k ∈ l.map Prod.fst)
    (hlook : ∀ p ∈ l, B.lookup p.1 = some ((Sum.inr (procDoc P p.2) : Entry Doc))) :
    pyDict (l.map (fun p => (p.1, (Sum.inl p.2 : Entry Doc))) ++ B)
      = l.map (fun p => (p.1, (Sum.inr (procDoc P p.2) : Entry Doc))) := by
  unfold pyDict
  rw [List.foldl_append]
  have hA' : ((l.map (fun p => (p.1, (Sum.inl p.2 : Entry Doc)))).map Prod.fst).Nodup := by
    rw [map_fst_map_pair]
    exact hA
  have e1 : (l.map (fun p => (p.1, (Sum.inl p.2 : Entry Doc)))).foldl
      (fun m p => dictUpd m p.1 p.2) []
      = l.map (fun p => (p.1, (Sum.inl p.2 : Entry Doc))) := by
    have := pyDict_eq_self hA'
    simpa [pyDict] using this
  rw [e1]
  rw [foldl_dictUpd_override B _ hndB]
  · rw [List.map_map]
    apply List.map_congr_left
    intro p hp
    simp only [Function.comp_apply, hlook p hp]
  · rw [map_fst_map_pair]
    exact hsubB

theorem map_pair_comp {A B C D : Type} (f : A × B → C) (g : C → D) (l : List (A × B)) :
    (l.map (fun p => (p.1, f p))).map (fun q => (q.1, g q.2))
      = l.map (fun p => (p.1, g (f p))) := by
  rw [List.map_map]
  apply List.map_congr_left
  intro p _
  rfl

theorem runPipeline_fst_eq {Doc : Type} (P : Provider Doc) (l : List (Nat × String))
    (h : (l.map Prod.fst).Nodup) :
    (runPipeline P l).1
      = sortByKey (l.map (fun p => (p.1, (Sum.inr (procDoc P p.2) : Entry Doc)))) := by
  have hinj := List.inj_on_of_nodup_map h
  unfold runPipeline filter_training_samples_by_content merge_content_lists
  simp only [process_content_bearing_eq, process_non_content_bearing_eq, List.map_append]
  rw [map_pair_comp (fun p => P.annotate p.2) Sum.inr, map_pair_comp (fun _ => P.emptyDoc) Sum.inr]
  apply congrArg sortByKey
  have hkeysc : ((l.filter (fun p => p.2 != "")).map
      (fun p => (p.1, (Sum.inr (P.annotate p.2) : Entry Doc)))).map Prod.fst
      = (l.filter (fun p => p.2 != "")).map Prod.fst := map_fst_map_pair _ _
  have hkeyse : ((l.filter (fun p => p.2 == "")).map
      (fun p => (p.1, (Sum.inr P.emptyDoc : Entry Doc)))).map Prod.fst
      = (l.filter (fun p => p.2 == "")).map Prod.fst := map_fst_map_pair _ _
  have hndc : ((l.filter (fun p => p.2 != "")).map Prod.fst).Nodup :=
    List.Nodup.sublist ((List.filter_sublist l).map Prod.fst) h
  have hnde : ((l.filter (fun p => p.2 == "")).map Prod.fst).Nodup :=
    List.Nodup.sublist ((List.filter_sublist l).map Prod.fst) h
  have hdisj : ∀ k, k ∈ (l.filter (fun p => p.2 != "")).map Prod.fst →
      k ∈ (l.filter (fun p => p.2 == "")).map Prod.fst → False := by
    intro k hk1 hk2
    obtain ⟨p, hp, hpk⟩ := List.mem_map.mp hk1
    obtain ⟨q, hq, hqk⟩ := List.mem_map.mp hk2
    rw [List.mem_filter] at hp hq
    have hpq : p = q := hinj hp.1 hq.1 (hpk.trans hqk.symm)
    have h1 : p.2 ≠ "" := by simpa using hp.2
    have h2 : q.2 = "" := by simpa using hq.2
    exact h1 (hpq ▸ h2)
  apply pyDict_inl_append_inr P l _ h
  · rw [List.map_append, hkeysc, hkeyse, List.nodup_append]
    exact ⟨hndc, hnde, fun a ha hb => hdisj a ha hb⟩
  · intro k hk
    rw [List.map_append, hkeysc, hkeyse] at hk
    rcases List.mem_append.mp hk with hk | hk
    · obtain ⟨p, hp, hpk⟩ := List.mem_map.mp hk
      rw [List.mem_filter] at hp
      exact List.mem_map.mpr ⟨p, hp.1, hpk⟩
    · obtain ⟨p, hp, hpk⟩ := List.mem_map.mp hk
      rw [List.mem_filter] at hp
      exact List.mem_map.mpr ⟨p, hp.1, hpk⟩
  · intro p hp
    rw [List.lookup_append]
    by_cases hp2 : p.2 = ""
    · have hnotc : p.1 ∉ ((l.filter (fun p => p.2 != "")).map
          (fun p => (p.1, (Sum.inr (P.annotate p.2) : Entry Doc)))).map Prod.fst := by
        rw [hkeysc]
        intro hmem
        obtain ⟨q, hq, hqk⟩ := List.mem_map.mp hmem
        rw [List.mem_filter] at hq
        have hqp : q = p := hinj hq.1 hp hqk
        have hqne : q.2 ≠ "" := by simpa using hq.2
        exact hqne (hqp ▸ hp2)
      rw [lookup_eq_none_of_not_mem hnotc]
      have hmem : (p.1, (Sum.inr P.emptyDoc : Entry Doc)) ∈
          (l.filter (fun p => p.2 == "")).map
            (fun p => (p.1, (Sum.inr P.emptyDoc : Entry Doc))) :=
        List.mem_map.mpr ⟨p, List.mem_filter.mpr ⟨hp, by simp [hp2]⟩, rfl⟩
      rw [lookup_eq_some_of_mem (by rw [hkeyse]; exact hnde) hmem]
      rw [Option.none_or]
      rw [procDoc, if_pos hp2]
    · have hmem : (p.1, (Sum.inr (P.annotate p.2) : Entry Doc)) ∈
          (l.filter (fun p => p.2 != "")).map
            (fun p => (p.1, (Sum.inr (P.annotate p.2) : Entry Doc))) :=
        List.mem_map.mpr ⟨p, List.mem_filter.mpr ⟨hp, by simp [hp2]⟩, rfl⟩
      rw [lookup_eq_some_of_mem (by rw [hkeysc]; exact hndc) hmem]
      rw [Option.or_some]
      rw [procDoc, if_neg hp2]

theorem enum_map_fst_nodup {A : Type} (l : List A) : ((l.enum).map Prod.fst).Nodup := by
  rw [List.enum_map_fst]
  exact List.nodup_range _

theorem sorted_keyLE_map_enum {A B : Type} (f : Nat × A → B) (l : List A) :
    (l.enum.map (fun p => (p.1, f p))).Sorted keyLE := by
  apply List.pairwise_map.mpr
  have hp : List.Pairwise (fun a b : Nat × A => a.1 ≤ b.1) l.enum := by
    have hr := List.sorted_le_range l.length
    rw [← List.enum_map_fst l] at hr
    exact List.pairwise_map.mp hr
  exact hp.imp (fun hab => hab)

theorem enum_map_snd_comp {A B : Type} (g : A → B) (ts : List A) :
    ts.enum.map (fun p => g p.2) = ts.map g := by
  have h1 : (ts.enum.map Prod.snd).map g = ts.map g := by rw [List.enum_map_snd]
  rw [← h1, List.map_map]
  apply List.map_congr_left
  intro p _
  rfl

theorem docs_for_attribute_eq {Doc : Type} (P : Provider Doc) (cs : Bool)
    (raw : List (Option String)) :
    docs_for_attribute P cs raw
      = raw.map (fun r => (Sum.inr (procDoc P (preprocess_text cs r)) : Entry Doc)) := by
  unfold docs_for_attribute
  show ((runPipeline P ((raw.map (preprocess_text cs)).enum)).1).map (fun p => p.2)
      = raw.map (fun r => (Sum.inr (procDoc P (preprocess_text cs r)) : Entry Doc))
  rw [runPipeline_fst_eq P _ (enum_map_fst_nodup _)]
  unfold sortByKey
  rw [List.Sorted.insertionSort_eq (sorted_keyLE_map_enum _ _)]
  rw [List.map_map]
  rw [show ((fun p : Nat × Entry Doc => p.2) ∘
      (fun p : Nat × String => (p.1, (Sum.inr (procDoc P p.2) : Entry Doc))))
      = (fun p : Nat × String => (Sum.inr (procDoc P p.2) : Entry Doc)) from rfl]
  rw [enum_map_snd_comp (fun t => (Sum.inr (procDoc P t) : Entry Doc))
    (raw.map (preprocess_text cs))]
  rw [List.map_map]
  apply List.map_congr_left
  intro r _
  rfl

theorem lookup_map_replace_ne {κ α : Type} [BEq κ] [LawfulBEq κ] {m : List (κ × α)}
    {a b : κ} (v : α) (hab : a ≠ b) :
    (m.map (fun p => if p.1 == b then (p.1, v) else p)).lookup a = m.lookup a := by
  induction m with
  | nil => rfl
  | cons p ps ih =>
    obtain ⟨pk, pv⟩ := p
    by_cases hpb : pk = b
    · subst hpb
      have hax : (a == pk) = false := by
        simp only [beq_eq_false_iff_ne, ne_eq]
        exact hab
      simp [List.lookup_cons, hax, ih]
    · by_cases hax : a = pk
      · subst hax
        simp [List.lookup_cons, hpb]
      · have hax2 : (a == pk) = false := by
          simp only [beq_eq_false_iff_ne, ne_eq]
          exact hax
        simp [List.lookup_cons, hax2, hpb, ih]

theorem lookup_map_replace_self {κ α : Type} [BEq κ] [LawfulBEq κ] {m : List (κ × α)}
    {b : κ} (v : α) (hmem : b ∈ m.map Prod.fst) :
    (m.map (fun p => if p.1 == b then (p.1, v) else p)).lookup b = some v := by
  induction m with
  | nil => cases hmem
  | cons p ps ih =>
    obtain ⟨pk, pv⟩ := p
    by_cases hpb : pk = b
    · subst hpb
      simp [List.lookup_cons]
    · have hmem2 : b ∈ ps.map Prod.fst := by
        rw [List.map_cons] at hmem
        rcases List.mem_cons.mp hmem with h1 | h1
        · exact absurd h1.symm hpb
        · exact h1
      have hb2 : (b == pk) = false := by
        simp only [beq_eq_false_iff_ne, ne_eq]
        exact fun he => hpb he.symm
      simp [List.lookup_cons, hpb, hb2, ih hmem2]

theorem lookup_dictUpd_self {κ α : Type} [BEq κ] [LawfulBEq κ] (m : List (κ × α))
    (b : κ) (v : α) : (dictUpd m b v).lookup b = some v := by
  by_cases hmem : b ∈ m.map Prod.fst
  · rw [dictUpd_of_mem v hmem]
    exact lookup_map_replace_self v hmem
  · rw [dictUpd_of_not_mem v hmem, List.lookup_append,
      lookup_eq_none_of_not_mem hmem, Option.none_or, List.lookup_cons_self]

theorem lookup_dictUpd_ne {κ α : Type} [BEq κ] [LawfulBEq κ] (m : List (κ × α))
    {a b : κ} (v : α) (hab : a ≠ b) : (dictUpd m b v).lookup a = m.lookup a := by
  by_cases hmem : b ∈ m.map Prod.fst
  · rw [dictUpd_of_mem v hmem]
    exact lookup_map_replace_ne v hab
  · have hone : ([(b, v)] : List (κ × α)).lookup a = none := by
      have hax : (a == b) = false := by
        simp only [beq_eq_false_iff_ne, ne_eq]
        exact hab
      simp [List.lookup_cons, hax]
    rw [dictUpd_of_not_mem v hmem, List.lookup_append, hone, Option.or_none]

theorem mem_dictUpd_map_fst {κ α : Type} [BEq κ] [LawfulBEq κ] {m : List (κ × α)}
    {b c : κ} (v : α) (hc : c ∈ (dictUpd m b v).map Prod.fst) :
    c = b ∨ c ∈ m.map Prod.fst := by
  by_cases hmem : b ∈ m.map Prod.fst
  · rw [dictUpd_of_mem v hmem, map_fst_map_replace] at hc
    exact Or.inr hc
  · rw [dictUpd_of_not_mem v hmem, List.map_append] at hc
    rcases List.mem_append.mp hc with h1 | h1
    · exact Or.inr h1
    · simp at h1
      exact Or.inl h1

theorem condFoldFrom_lookup_pres {β : Type} (cond : String → Prop) [DecidablePred cond]
    (val : String → β) (a : String) :
    ∀ (attrs : List String), a ∉ attrs → ∀ r : List (String × β),
      (condFoldFrom attrs cond val r).lookup a = r.lookup a := by
  intro attrs
  induction attrs with
  | nil => intro _ r; rfl
  | cons b attrs ih =>
    intro hna r
    have hab : a ≠ b := fun he => hna (he ▸ List.mem_cons_self b attrs)
    unfold condFoldFrom
    rw [List.foldl_cons]
    have ih2 := ih (fun hm => hna (List.mem_cons_of_mem b hm))
    unfold condFoldFrom at ih2
    rw [ih2]
    by_cases hc : cond b
    · rw [if_pos hc, lookup_dictUpd_ne _ _ hab]
    · rw [if_neg hc]

theorem condFoldFrom_lookup {β : Type} (cond : String → Prop) [DecidablePred cond]
    (val : String → β) (a : String) :
    ∀ (attrs : List String), attrs.Nodup → a ∈ attrs →
    ∀ row : List (String × β), a ∉ row.map Prod.fst →
      (condFoldFrom attrs cond val row).lookup a
        = if cond a then some (val a) else none := by
  intro attrs
  induction attrs with
  | nil => intro _ ha; cases ha
  | cons b attrs ih =>
    intro hnd ha row hrow
    rw [List.nodup_cons] at hnd
    unfold condFoldFrom
    rw [List.foldl_cons]
    by_cases hab : a = b
    · subst hab
      have hpres := condFoldFrom_lookup_pres cond val a attrs hnd.1
      unfold condFoldFrom at hpres
      rw [hpres]
      by_cases hc : cond a
      · rw [if_pos hc, if_pos hc, lookup_dictUpd_self]
      · rw [if_neg hc, if_neg hc, lookup_eq_none_of_not_mem hrow]
    · have ha2 : a ∈ attrs := by
        rcases List.mem_cons.mp ha with h1 | h1
        · exact absurd h1 hab
        · exact h1
      have hrow2 : a ∉ (if cond b then dictUpd row b (val b) else row).map Prod.fst := by
        by_cases hc : cond b
        · rw [if_pos hc]
          intro hmem
          rcases mem_dictUpd_map_fst (val b) hmem with h1 | h1
          · exact hab h1
          · exact hrow h1
        · rw [if_neg hc]
          exact hrow
      have ih2 := ih hnd.2 ha2 _ hrow2
      unfold condFoldFrom at ih2
      exact ih2

theorem condFoldFrom_cons {β : Type} (b : String) (attrs : List String)
    (cond : String → Prop) [DecidablePred cond] (val : String → β)
    (row : List (String × β)) :
    condFoldFrom (b :: attrs) cond val row
      = condFoldFrom attrs cond val (if cond b then dictUpd row b (val b) else row) := rfl

theorem train_fold_aux {Doc : Type} (P : Provider Doc) (cs : Bool) :
    ∀ (attrs : List String) (examples : List Message)
      (rowF : Message → List (String × Entry Doc)),
    attrs.foldl (fun acc a =>
        ((acc.zip (docs_for_attribute P cs (examples.map (fun e => e.get a)))).map
          (fun q => if 0 < entryLen P q.2 then dictUpd q.1 a q.2 else q.1)))
      (examples.map rowF)
    = examples.map (fun e => condFoldFrom attrs
        (fun a => 0 < entryLen P
          ((Sum.inr (procDoc P (preprocess_text cs (e.get a))) : Entry Doc)))
        (fun a => (Sum.inr (procDoc P (preprocess_text cs (e.get a))) : Entry Doc))
        (rowF e)) := by
  intro attrs
  induction attrs with
  | nil =>
    intro examples rowF
    rfl
  | cons a attrs ih =>
    intro examples rowF
    rw [List.foldl_cons]
    have hstep : ((examples.map rowF).zip
          (docs_for_attribute P cs (examples.map (fun e => e.get a)))).map
          (fun q => if 0 < entryLen P q.2 then dictUpd q.1 a q.2 else q.1)
        = examples.map (fun e =>
            if 0 < entryLen P
                ((Sum.inr (procDoc P (preprocess_text cs (e.get a))) : Entry Doc))
            then dictUpd (rowF e) a (Sum.inr (procDoc P (preprocess_text cs (e.get a))))
            else rowF e) := by
      rw [docs_for_attribute_eq, List.map_map, List.zip_map', List.map_map]
      apply List.map_congr_left
      intro e _
      rfl
    rw [hstep]
    have := ih examples (fun e =>
      if 0 < entryLen P ((Sum.inr (procDoc P (preprocess_text cs (e.get a))) : Entry Doc))
      then dictUpd (rowF e) a (Sum.inr (procDoc P (preprocess_text cs (e.get a))))
      else rowF e)
    rw [this]
    apply List.map_congr_left
    intro e _
    rw [condFoldFrom_cons]

theorem train_eq {Doc : Type} (P : Provider Doc) (cs : Bool) (attrs : List String)
    (examples : List Message) :
    train P cs attrs examples
      = examples.map (fun e => condFoldFrom attrs
          (fun a => 0 < entryLen P
            ((Sum.inr (procDoc P (preprocess_text cs (e.get a))) : Entry Doc)))
          (fun a => (Sum.inr (procDoc P (preprocess_text cs (e.get a))) : Entry Doc))
          []) := by
  have := train_fold_aux P cs attrs examples (fun _ => [])
  exact this

theorem process_fold_aux {Doc : Type} (P : Provider Doc) (cs : Bool) (m : Message) :
    ∀ (attrs : List String) (row : List (String × Doc)) (calls : List String),
    attrs.foldl (fun acc attr =>
        if truthy (m.get attr) then
          (dictUpd acc.1 attr (doc_for_text P cs (m.get attr)),
           acc.2 ++ [preprocess_text cs (m.get attr)])
        else acc) (row, calls)
      = (condFoldFrom attrs (fun a => truthy (m.get a) = true)
           (fun a => doc_for_text P cs (m.get a)) row,
         calls ++ (attrs.filter (fun a => truthy (m.get a))).map
           (fun a => preprocess_text cs (m.get a))) := by
  intro attrs
  induction attrs with
  | nil =>
    intro row calls
    simp [condFoldFrom]
  | cons b attrs ih =>
    intro row calls
    rw [List.foldl_cons, condFoldFrom_cons]
    by_cases hb : truthy (m.get b) = true
    · rw [if_pos hb, ih, if_pos hb]
      simp [List.filter_cons, hb]
    · rw [if_neg hb, ih, if_neg hb]
      simp [List.filter_cons, hb]

theorem process_eq {Doc : Type} (P : Provider Doc) (cs : Bool) (attrs : List String)
    (m : Message) :
    process P cs attrs m
      = (condFoldFrom attrs (fun a => truthy (m.get a) = true)
           (fun a => doc_for_text P cs (m.get a)) [],
         (attrs.filter (fun a => truthy (m.get a))).map
           (fun a => preprocess_text cs (m.get a))) := by
  unfold process
  rw [process_fold_aux]
  rw [List.nil_append]

/-- Claim C1: for every input sequence of (position, text) pairs with unique
positions, the batch pipeline (filter, process the content-bearing and the
empty partition, merge) yields a sequence whose positions, read in output
order, are exactly the input positions sorted ascending, and whose document at
each position is the one produced for that position's text: the provider's
document for non-empty text, the zero-token sentinel for empty text. -/

theorem claim_C1_pipeline {Doc : Type} (P : Provider Doc)
    (l : List (Nat × String)) (h : (l.map Prod.fst).Nodup) :
    ((runPipeline P l).1.map Prod.fst
        = List.insertionSort (fun a b => a ≤ b) (l.map Prod.fst))
    ∧ (∀ p ∈ l, (p.1, (Sum.inr (procDoc P p.2) : Entry Doc)) ∈ (runPipeline P l).1)
    ∧ (runPipeline P l).1.length = l.length := by
  rw [runPipeline_fst_eq P l h]
  unfold sortByKey
  refine ⟨?_, ?_, ?_⟩
  · have p1 : List.Perm ((List.insertionSort keyLE
        (l.map (fun p => (p.1, (Sum.inr (procDoc P p.2) : Entry Doc))))).map Prod.fst)
        (l.map Prod.fst) := by
      have hperm := (List.perm_insertionSort keyLE
        (l.map (fun p => (p.1, (Sum.inr (procDoc P p.2) : Entry Doc))))).map Prod.fst
      rwa [map_fst_map_pair] at hperm
    have p2 : List.Perm (List.insertionSort (fun a b => a ≤ b) (l.map Prod.fst))
        (l.map Prod.fst) :=
      List.perm_insertionSort _ _
    have s1 : ((List.insertionSort keyLE
        (l.map (fun p => (p.1, (Sum.inr (procDoc P p.2) : Entry Doc))))).map
          Prod.fst).Sorted (fun a b => a ≤ b) := by
      have hs := List.sorted_insertionSort keyLE
        (l.map (fun p => (p.1, (Sum.inr (procDoc P p.2) : Entry Doc))))
      exact List.pairwise_map.mpr (hs.imp (fun hab => hab))
    have s2 : (List.insertionSort (fun a b => a ≤ b) (l.map Prod.fst)).Sorted
        (fun a b => a ≤ b) :=
      List.sorted_insertionSort _ _
    exact List.eq_of_perm_of_sorted (p1.trans p2.symm) s1 s2
  · intro p hp
    rw [List.mem_insertionSort]
    exact List.mem_map.mpr ⟨p, hp, rfl⟩
  · rw [List.length_insertionSort, List.length_map]

/-- Witness for C1 at the concrete input `[(2, "b"), (0, ""), (5, "a")]`. -/

theorem claim_C1_witness :
    ((runPipeline sampleProvider [((2 : Nat), "b"), (0, ""), (5, "a")]).1.map Prod.fst
        = List.insertionSort (fun a b => a ≤ b)
            (([((2 : Nat), "b"), (0, ""), (5, "a")] : List (Nat × String)).map Prod.fst))
    ∧ (∀ p ∈ ([((2 : Nat), "b"), (0, ""), (5, "a")] : List (Nat × String)),
        (p.1, (Sum.inr (procDoc sampleProvider p.2) : Entry SampleDoc))
          ∈ (runPipeline sampleProvider [((2 : Nat), "b"), (0, ""), (5, "a")]).1)
    ∧ (runPipeline sampleProvider [((2 : Nat), "b"), (0, ""), (5, "a")]).1.length
        = ([((2 : Nat), "b"), (0, ""), (5, "a")] : List (Nat × String)).length :=
  claim_C1_pipeline sampleProvider [((2 : Nat), "b"), (0, ""), (5, "a")] (by decide)

/-- Counterexample to claim C2 as stated: at the all-empty input
`[(0, "")]` the batched capability `nlp.pipe` is invoked once (with an empty
text list), not zero times — `process_content_bearing_samples` calls
`nlp.pipe` unconditionally. -/

theorem claim_C2_counterexample :
    ((runPipeline sampleProvider [((0 : Nat), "")]).2.length = 1
      ∧ (runPipeline sampleProvider [((0 : Nat), "")]).2.length ≠ 0)
    ∧ (∀ p ∈ [((0 : Nat), "")], p.2 = "") := by decide

/-- Claim C2 (amended): for every input in which every text is empty, the
single batched call the pipeline makes receives zero texts (its argument list
is empty, so no text is ever annotated), and for the entirely empty input the
merged result is the empty sequence. -/

theorem claim_C2_amended (Doc : Type) (P : Provider Doc) (l : List (Nat × String))
    (h : ∀ p ∈ l, p.2 = "") :
    (runPipeline P l).2 = [[]]
    ∧ (l = [] → (runPipeline P l).1 = []) := by
  constructor
  · have hfe : l.filter (fun p => p.2 != "") = [] := by
      rw [List.filter_eq_nil_iff]
      intro p hp
      simp [h p hp]
    simp [runPipeline, filter_training_samples_by_content, hfe]
  · intro hl
    subst hl
    rfl

/-- Witness for the amended C2 at the concrete all-empty input `[(0, "")]`. -/

theorem claim_C2_witness :
    (runPipeline sampleProvider [((0 : Nat), "")]).2 = [[]]
    ∧ ([((0 : Nat), "")] = ([] : List (Nat × String)) →
        (runPipeline sampleProvider [((0 : Nat), "")]).1 = []) :=
  claim_C2_amended SampleDoc sampleProvider [((0 : Nat), "")] (by decide)

/-- Claim C3: model resolution returns a present non-empty explicit name
verbatim (no table validation, no advisory); otherwise it returns the fallback
table's entry for the language; and it raises the no-fallback resolution error
carrying the language code exactly when the explicit name is absent or empty
and the language has no table entry (no other error is ever raised). -/

theorem claim_C3_model_resolution (name : Option String) (lang : String) (warn : Bool) :
    (∀ n, name = some n → n ≠ "" → check_model_fallback name lang warn = Except.ok ⟨n, false⟩)
    ∧ (pyFalsy name → ∀ m, fallback_mapping.lookup lang = some m →
        check_model_fallback name lang warn = Except.ok ⟨m, warn⟩)
    ∧ (check_model_fallback name lang warn = Except.error (ModelError.noFallback lang) ↔
        (pyFalsy name ∧ fallback_mapping.lookup lang = none))
    ∧ (∀ e, check_model_fallback name lang warn = Except.error e →
        e = ModelError.noFallback lang) := by
  rcases name with _ | n
  · rcases hl : fallback_mapping.lookup lang with _ | m <;>
      simp [check_model_fallback, resolve_fallback, hl, pyFalsy]
  · by_cases hn : n = ""
    · subst hn
      rcases hl : fallback_mapping.lookup lang with _ | m <;>
        simp [check_model_fallback, resolve_fallback, hl, pyFalsy]
    · simp [check_model_fallback, hn, pyFalsy]

/-- Witness for C3: an explicit name wins over an unmapped language, `"en"`
falls back with a warning, and an unmapped language with no name fails. -/

theorem claim_C3_witness :
    check_model_fallback (some "my_model") "xx" true = Except.ok ⟨"my_model", false⟩
    ∧ check_model_fallback none "en" true = Except.ok ⟨"en_core_web_md", true⟩
    ∧ check_model_fallback none "xx" false = Except.error (ModelError.noFallback "xx") :=
  ⟨(claim_C3_model_resolution (some "my_model") "xx" true).1 "my_model" rfl (by decide),
   (claim_C3_model_resolution none "en" true).2.1 (Or.inl rfl) "en_core_web_md" rfl,
   ((claim_C3_model_resolution none "xx" false).2.2.1).mpr ⟨Or.inl rfl, rfl⟩⟩

/-- Claim C4: `cache_key` returns the component type name, a dash, and the
resolved model name; it resolves silently (`warn=False`, so the result is
never flagged as warned); it propagates resolution errors unchanged; and two
successfully resolved configurations get equal keys iff their resolved model
names are equal. -/

theorem claim_C4_cache_key (cname : String) (model : Option String) (lang : String) :
    (∀ s, check_model_fallback model lang false = Except.ok s →
        cache_key cname model lang = Except.ok ⟨cname ++ "-" ++ s.name, s.warned⟩)
    ∧ (∀ r, cache_key cname model lang = Except.ok r → r.warned = false)
    ∧ (∀ e, cache_key cname model lang = Except.error e ↔
        check_model_fallback model lang false = Except.error e)
    ∧ (∀ model2 lang2 s s2, check_model_fallback model lang false = Except.ok s →
        check_model_fallback model2 lang2 false = Except.ok s2 →
        ((cname ++ "-" ++ s.name : String) = cname ++ "-" ++ s2.name ↔ s.name = s2.name)) := by
  refine ⟨?_, ?_, ?_, ?_⟩
  · intro s hs
    simp [cache_key, hs, Except.map]
  · intro r hr
    rcases hs : check_model_fallback model lang false with e | s
    · simp [cache_key, hs, Except.map] at hr
    · simp [cache_key, hs, Except.map] at hr
      have hw := cache_key_warned model lang s hs
      rw [← hr]
      exact hw
  · intro e
    rcases hs : check_model_fallback model lang false with e' | s <;>
      simp [cache_key, hs, Except.map]
  · intro model2 lang2 s s2 hs hs2
    constructor
    · intro h
      exact string_append_cancel_left h
    · intro h
      rw [h]

/-- Witness for C4: two configurations resolving to `en_core_web_md` (one
explicit, one by fallback) get the same key, with no advisory. -/

theorem claim_C4_witness :
    cache_key "SpacyNLP" (some "en_core_web_md") "de"
        = Except.ok ⟨"SpacyNLP" ++ "-" ++ "en_core_web_md", false⟩
    ∧ cache_key "SpacyNLP" none "en"
        = Except.ok ⟨"SpacyNLP" ++ "-" ++ "en_core_web_md", false⟩
    ∧ (("SpacyNLP" ++ "-" ++ ("en_core_web_md" : String)
          = "SpacyNLP" ++ "-" ++ "en_core_web_md")
        ↔ ("en_core_web_md" : String) = "en_core_web_md") :=
  ⟨(claim_C4_cache_key "SpacyNLP" (some "en_core_web_md") "de").1
      ⟨"en_core_web_md", false⟩ rfl,
   (claim_C4_cache_key "SpacyNLP" none "en").1 ⟨"en_core_web_md", false⟩ rfl,
   (claim_C4_cache_key "SpacyNLP" (some "en_core_web_md") "de").2.2.2 none "en"
      ⟨"en_core_web_md", false⟩ ⟨"en_core_web_md", false⟩ rfl rfl⟩

/-- Claim C5: in the training attachment step, for every example and
attribute, a text that normalizes to the empty string leaves the attribute's
document slot unpopulated, and a non-empty normalized text always results in
the provider's document for that text being attached (assuming the provider
gives non-empty texts at least one token and the sentinel zero tokens). -/

theorem claim_C5_train_attachment {Doc : Type} (P : Provider Doc) (cs : Bool)
    (attrs : List String) (examples : List Message)
    (hnd : attrs.Nodup)
    (hann : ∀ t, t ≠ "" → 0 < P.docLen (P.annotate t))
    (hemp : P.docLen P.emptyDoc = 0)
    (a : String) (ha : a ∈ attrs) (i : Nat) (e : Message)
    (he : examples[i]? = some e) :
    ∃ row, (train P cs attrs examples)[i]? = some row
      ∧ (preprocess_text cs (e.get a) = "" → row.lookup a = none)
      ∧ (preprocess_text cs (e.get a) ≠ "" →
          row.lookup a = some (Sum.inr (P.annotate (preprocess_text cs (e.get a))))) := by
  rw [train_eq]
  refine ⟨condFoldFrom attrs
      (fun b => 0 < entryLen P
        ((Sum.inr (procDoc P (preprocess_text cs (e.get b))) : Entry Doc)))
      (fun b => (Sum.inr (procDoc P (preprocess_text cs (e.get b))) : Entry Doc)) [],
    ?_, ?_, ?_⟩
  · rw [List.getElem?_map, he]
    rfl
  · intro ht
    rw [condFoldFrom_lookup _ _ a attrs hnd ha [] (by simp)]
    have hcond : ¬ (0 < entryLen P
        ((Sum.inr (procDoc P (preprocess_text cs (e.get a))) : Entry Doc))) := by
      rw [ht]
      simp [entryLen, procDoc, hemp]
    rw [if_neg hcond]
  · intro ht
    rw [condFoldFrom_lookup _ _ a attrs hnd ha [] (by simp)]
    have hdoc : procDoc P (preprocess_text cs (e.get a))
        = P.annotate (preprocess_text cs (e.get a)) := by
      unfold procDoc
      rw [if_neg ht]
    have hcond : 0 < entryLen P
        ((Sum.inr (procDoc P (preprocess_text cs (e.get a))) : Entry Doc)) := by
      rw [hdoc]
      exact hann _ ht
    rw [if_pos hcond, hdoc]

/-- Witness for C5 at one training example with text `"Hi"`. -/

theorem claim_C5_witness :
    ∃ row, (train sampleProvider false ["text"] [Message.mk [("text", "Hi")]])[0]?
        = some row
      ∧ (preprocess_text false ((Message.mk [("text", "Hi")]).get "text") = "" →
          row.lookup "text" = none)
      ∧ (preprocess_text false ((Message.mk [("text", "Hi")]).get "text") ≠ "" →
          row.lookup "text" = some (Sum.inr (sampleProvider.annotate
            (preprocess_text false ((Message.mk [("text", "Hi")]).get "text"))))) :=
  claim_C5_train_attachment sampleProvider false ["text"] [Message.mk [("text", "Hi")]]
    (by decide) (fun _ _ => Nat.one_pos) rfl "text" (by decide) 0
    (Message.mk [("text", "Hi")]) rfl

/-- Claim C6: validation fails with the null-provider error exactly when the
loaded handle is absent, fails with the stub-provider error (carrying the
handle's language) exactly when the handle is present but has no on-disk
path, and succeeds otherwise. -/

theorem claim_C6_validation (n : Option Language) :
    (ensure_proper_language_model n = Except.error ModelError.nullProvider ↔ n = none)
    ∧ (∀ L, n = some L →
        (ensure_proper_language_model n = Except.error (ModelError.stubProvider L.lang) ↔
          L.path = none))
    ∧ (∀ L, n = some L → L.path ≠ none → ensure_proper_language_model n = Except.ok ()) := by
  rcases n with _ | L
  · simp [ensure_proper_language_model]
  · rcases hp : L.path with _ | p <;>
      simp [ensure_proper_language_model, hp]

/-- Witness for C6: a path-less handle is rejected as a stub. -/

theorem claim_C6_witness :
    ensure_proper_language_model (some ⟨none, "en"⟩)
      = Except.error (ModelError.stubProvider "en") :=
  ((claim_C6_validation (some ⟨none, "en"⟩)).2.1 ⟨none, "en"⟩ rfl).mpr rfl

/-- Claim C7: with case-insensitive configuration, for raw texts
`["Hello", "", "World"]` at positions 0, 1, 2, the batched call receives
exactly `["hello", "world"]`, position 1 gets the zero-token sentinel, and
the merged output is ordered by positions 0, 1, 2. -/

theorem claim_C7_scenario_a :
    runPipeline sampleProvider
        ((["Hello", "", "World"].map (fun t => preprocess_text false (some t))).enum)
      = ([(0, Sum.inr (SampleDoc.annotated "hello")),
          (1, Sum.inr SampleDoc.emptySentinel),
          (2, Sum.inr (SampleDoc.annotated "world"))],
         [["hello", "world"]]) := by decide

/-- Counterexample to claim C8 as stated: a raw text that is present but
empty (`message.get` returns `some ""`) is falsy in Python, so `process`
makes no provider call and attaches nothing — presence alone does not imply
attachment. -/

theorem claim_C8_counterexample :
    (Message.mk [("text", "")]).get "text" = some ""
    ∧ (process sampleProvider false ["text"] (Message.mk [("text", "")])).1.lookup "text"
        = none
    ∧ (process sampleProvider false ["text"] (Message.mk [("text", "")])).2 = [] := by
  decide

/-- Claim C8 (amended): in single-example inference, for every attribute
whose raw text is present and non-empty, the text is normalized, the
provider's single-document call is invoked on it directly, and the result is
attached; when the raw text is absent or empty nothing is attached; and the
provider calls made are exactly the normalized texts of the truthy
attributes (no partition/batch/merge is involved). -/

theorem claim_C8_amended (Doc : Type) (P : Provider Doc) (cs : Bool)
    (attrs : List String) (m : Message) (hnd : attrs.Nodup)
    (a : String) (ha : a ∈ attrs) :
    (∀ t, m.get a = some t → t ≠ "" →
        (process P cs attrs m).1.lookup a
            = some (P.annotate (preprocess_text cs (some t)))
        ∧ preprocess_text cs (some t) ∈ (process P cs attrs m).2)
    ∧ ((m.get a = none ∨ m.get a = some "") →
        (process P cs attrs m).1.lookup a = none)
    ∧ (process P cs attrs m).2
        = (attrs.filter (fun b => truthy (m.get b))).map
            (fun b => preprocess_text cs (m.get b)) := by
  rw [process_eq]
  refine ⟨?_, ?_, rfl⟩
  · intro t hta htne
    have htr : truthy (m.get a) = true := by
      rw [hta]
      simp [truthy, htne]
    constructor
    · rw [condFoldFrom_lookup _ _ a attrs hnd ha [] (by simp), if_pos htr]
      unfold doc_for_text
      rw [hta]
    · apply List.mem_map.mpr
      refine ⟨a, List.mem_filter.mpr ⟨ha, htr⟩, ?_⟩
      rw [hta]
  · intro hfa
    have htr : ¬ (truthy (m.get a) = true) := by
      rcases hfa with h1 | h1 <;> rw [h1] <;> simp [truthy]
    rw [condFoldFrom_lookup _ _ a attrs hnd ha [] (by simp), if_neg htr]

/-- Witness for the amended C8 at a message with text `"Hello"`. -/

theorem claim_C8_witness :
    (∀ t, (Message.mk [("text", "Hello")]).get "text" = some t → t ≠ "" →
        (process sampleProvider false ["text"]
            (Message.mk [("text", "Hello")])).1.lookup "text"
            = some (sampleProvider.annotate (preprocess_text false (some t)))
        ∧ preprocess_text false (some t)
            ∈ (process sampleProvider false ["text"] (Message.mk [("text", "Hello")])).2)
    ∧ (((Message.mk [("text", "Hello")]).get "text" = none ∨
        (Message.mk [("text", "Hello")]).get "text" = some "") →
        (process sampleProvider false ["text"]
            (Message.mk [("text", "Hello")])).1.lookup "text" = none)
    ∧ (process sampleProvider false ["text"] (Message.mk [("text", "Hello")])).2
        = ((["text"] : List String).filter
            (fun b => truthy ((Message.mk [("text", "Hello")]).get b))).map
            (fun b => preprocess_text false ((Message.mk [("text", "Hello")]).get b)) :=
  claim_C8_amended SampleDoc sampleProvider false ["text"]
    (Message.mk [("text", "Hello")]) (by decide) "text" (by decide)

/-- Claim C9: text normalization is idempotent for every configuration —
applying `preprocess_text` to its own output returns it unchanged; `None`
maps to the empty string, which is itself a fixed point. -/

theorem claim_C9_preprocess_idempotent (case_sensitive : Bool) (text : Option String) :
    preprocess_text case_sensitive (some (preprocess_text case_sensitive text))
        = preprocess_text case_sensitive text
    ∧ preprocess_text case_sensitive none = ""
    ∧ preprocess_text case_sensitive (some "") = ""
    ∧ ∀ s, preprocess_text true (some s) = s := by
  refine ⟨?_, ?_, ?_, fun s => rfl⟩
  · cases case_sensitive with
    | true => simp [preprocess_text]
    | false => simp [preprocess_text, strLower_idem]
  · cases case_sensitive with
    | true => rfl
    | false => rfl
  · cases case_sensitive with
    | true => rfl
    | false => rfl

/-- Claim C10: `load` returns an already-resident cached component unchanged
and performs no resolution, no provider load and no validation, whatever the
configuration and loader (so a cached component is reused even if its
configuration would now fail resolution or validation). -/

theorem claim_C10_load_cached (loader : String → Except ModelError Language)
    (meta_model : Option String) (lang : String) (c : SpacyNLPComponent) :
    load loader meta_model lang (some c) = Except.ok (c, ⟨false, false, false⟩) := rfl

end SpacyUtils
